import Mathlib

/-!
Verification of the FerrOS boot/memory subsystem.

This file gives a shallow embedding of the memory-map data model
(`src/efi.rs`), the bitmap physical-frame allocator
(`src/memory/allocator.rs`), the identity paging setup
(`src/memory/mapper.rs`) and the ExitBootServices handshake
(`src/main.rs`), together with theorems about the claims of the
natural-language specification.
-/

namespace FerrOS

set_option maxRecDepth 16000

/-! ## Memory map model (src/efi.rs)

`EfiMemoryDescriptor` is the repr(C) UEFI descriptor: `memory_type : u32`
at byte offset 0, 4 bytes of padding, `physical_start : u64` at offset 8,
`virtual_start : u64` at offset 16, `number_of_pages : u64` at offset 24,
`attribute : u64` at offset 32.  Only the three fields actually read by
the allocator are retained in the parsed form.

`MemoryMapHolder` holds the raw byte buffer together with the sizes
reported by the firmware (`memory_map_size`, `descriptor_size`). -/

/-- The fields of a UEFI memory descriptor that the allocator reads. -/
structure EfiMemoryDescriptor where
  memory_type : Nat
  physical_start : Nat
  number_of_pages : Nat
deriving Repr, DecidableEq

/-- Raw firmware memory-map buffer plus the sizes reported at capture time.
Bytes are modelled as naturals (taken mod 256 when read). -/
structure MemoryMapHolder where
  memory_map_buffer : List Nat
  memory_map_size : Nat
  descriptor_size : Nat
deriving Repr, DecidableEq

/-- Little-endian read of `n` bytes starting at byte offset `off`. -/
def readLE (buf : List Nat) (off : Nat) : Nat → Nat
  | 0 => 0
  | n + 1 => buf.getD off 0 % 256 + 256 * readLE buf (off + 1) n

/-- The descriptor obtained by interpreting the bytes at offset
`i * descriptor_size` as an `EfiMemoryDescriptor` (field offsets 0, 8, 24),
mirroring the raw pointer cast in `BitmapFrameAllocator::new`. -/
def descAt (h : MemoryMapHolder) (i : Nat) : EfiMemoryDescriptor :=
  { memory_type := readLE h.memory_map_buffer (i * h.descriptor_size) 4
  , physical_start := readLE h.memory_map_buffer (i * h.descriptor_size + 8) 8
  , number_of_pages := readLE h.memory_map_buffer (i * h.descriptor_size + 24) 8 }

/-- Number of descriptors walked: `memory_map_size / descriptor_size`. -/
def numDesc (h : MemoryMapHolder) : Nat :=
  h.memory_map_size / h.descriptor_size

/-- The descriptors visited by `walk_desc`, in walk order. -/
def descs (h : MemoryMapHolder) : List EfiMemoryDescriptor :=
  (List.range (numDesc h)).map (descAt h)

/-! ## Bitmap frame allocator (src/memory/allocator.rs) -/

def BITMAP_STORAGE_SIZE_BYTES : Nat := 102400

def U64_MOD : Nat := 2 ^ 64

/-- Allocator state: the bitmap (bit = true means not allocatable) and the
retained `frame_count` bound used by `allocate_frame`. -/
structure BitmapFrameAllocator where
  bitmap : List Bool
  frame_count : Nat
deriving Repr, DecidableEq

/-- The two panic exits of `BitmapFrameAllocator::new`. -/
inductive NewError where
  | descriptorSizeZero
  | bitmapTooSmall
deriving Repr, DecidableEq

instance {ε α : Type} [DecidableEq ε] [DecidableEq α] :
    DecidableEq (Except ε α) := fun x y =>
  match x, y with
  | .error e, .error e' =>
    if h : e = e' then isTrue (by rw [h]) else
      isFalse (fun hh => h (Except.error.inj hh))
  | .ok a, .ok b =>
    if h : a = b then isTrue (by rw [h]) else
      isFalse (fun hh => h (Except.ok.inj hh))
  | .error _, .ok _ => isFalse (fun hh => Except.noConfusion hh)
  | .ok _, .error _ => isFalse (fun hh => Except.noConfusion hh)

/-- End address `physical_start + number_of_pages * 4096` in wrapping
u64 arithmetic. -/
def descEnd (d : EfiMemoryDescriptor) : Nat :=
  (d.physical_start + d.number_of_pages * 4096) % U64_MOD

/-- One step of the first `walk_desc` pass: record the descriptor end as
the running maximum, ignoring ends above 4 GiB. -/
def maxAddrStep (m : Nat) (d : EfiMemoryDescriptor) : Nat :=
  if descEnd d ≤ 0x100000000 ∧ m < descEnd d then descEnd d else m

/-- The `max_addr` computed by the first descriptor walk. -/
def maxAddr (h : MemoryMapHolder) : Nat :=
  (descs h).foldl maxAddrStep 0

/-- Derived frame count: `max_addr / 4096`. -/
def frameCountOf (h : MemoryMapHolder) : Nat :=
  maxAddr h / 4096

/-- Bytes needed for the bitmap: `(frame_count + 7) / 8`. -/
def bytesNeeded (h : MemoryMapHolder) : Nat :=
  (frameCountOf h + 7) / 8

def EFI_CONVENTIONAL : Nat := 7

/-- Second-walk step: clear (set to false) every frame bit of a
`EfiConventionalMemory` region, bounds-checked against `frame_count`.
`end_frame` is computed in wrapping usize arithmetic; an end below the
start yields an empty loop, as in Rust. -/
def clearUsable (fc : Nat) (bm : List Bool) (d : EfiMemoryDescriptor) : List Bool :=
  if d.memory_type = EFI_CONVENTIONAL then
    let startFrame := d.physical_start / 4096
    let endFrame := (startFrame + d.number_of_pages) % U64_MOD
    (List.range' startFrame (endFrame - startFrame)).foldl
      (fun bm i => if i < fc then bm.set i false else bm) bm
  else bm

/-- Embedding of `BitmapFrameAllocator::new`.  The two panic branches
(zero descriptor size; bitmap storage too small) become `Except` errors.
The bitmap is `bytes_needed * 8` bits, filled with `true`, then usable
regions are cleared frame by frame. -/
def BitmapFrameAllocator.new (h : MemoryMapHolder) :
    Except NewError BitmapFrameAllocator :=
  if h.descriptor_size = 0 then .error .descriptorSizeZero
  else if BITMAP_STORAGE_SIZE_BYTES < bytesNeeded h then .error .bitmapTooSmall
  else .ok { bitmap := (descs h).foldl (clearUsable (frameCountOf h))
               (List.replicate (bytesNeeded h * 8) true)
           , frame_count := frameCountOf h }

/-- Embedding of `count_free_frames`. -/
def BitmapFrameAllocator.count_free_frames (a : BitmapFrameAllocator) : Nat :=
  (a.bitmap.filter (fun b => !b)).length

/-- Embedding of `mark_used`: set the bit at `index` to used. -/
def BitmapFrameAllocator.mark_used (a : BitmapFrameAllocator) (index : Nat) :
    BitmapFrameAllocator :=
  { a with bitmap := a.bitmap.set index true }

/-- The scan loop of `allocate_frame`: starting at `idx` with `fuel`
indices left to inspect, return the first index whose bit is free.
Reading past the end of the list yields the default `true` (used). -/
def firstFreeAux (bm : List Bool) : Nat → Nat → Option Nat
  | _, 0 => none
  | idx, fuel + 1 =>
    if bm.getD idx true then firstFreeAux bm (idx + 1) fuel else some idx

/-- First free bit at an index below `fc`. -/
def firstFree (bm : List Bool) (fc : Nat) : Option Nat :=
  firstFreeAux bm 0 fc

/-- Embedding of `allocate_frame`: linear scan from index 0 up to
`frame_count`; on a hit the bit is marked used and the physical address
`idx * 4096` is returned. -/
def BitmapFrameAllocator.allocate_frame (a : BitmapFrameAllocator) :
    Option Nat × BitmapFrameAllocator :=
  match firstFree a.bitmap a.frame_count with
  | some idx => (some (idx * 4096), a.mark_used idx)
  | none => (none, a)

/-- The successful physical addresses produced by `n` successive
`allocate_frame` calls. -/
def allocRun (a : BitmapFrameAllocator) : Nat → List Nat
  | 0 => []
  | n + 1 =>
    match a.allocate_frame with
    | (some addr, a') => addr :: allocRun a' n
    | (none, a') => allocRun a' n

/-- The allocator state after `n` successive `allocate_frame` calls. -/
def allocStateN (a : BitmapFrameAllocator) : Nat → BitmapFrameAllocator
  | 0 => a
  | n + 1 => allocStateN a.allocate_frame.2 n

/-- The free indices below `frame_count`, in ascending order. -/
def freeIndices (a : BitmapFrameAllocator) : List Nat :=
  (List.range a.frame_count).filter (fun i => !a.bitmap.getD i true)

example : firstFree [true, false, true] 3 = some 1 := by decide

example :
    (BitmapFrameAllocator.allocate_frame ⟨[true, false, false], 3⟩).1 = some 4096 := by
  decide

example : allocRun ⟨[true, false, false], 3⟩ 4 = [4096, 8192] := by decide

/-! ## Helper lemmas about bitmap reads and writes -/

theorem getD_false_lt_length {bm : List Bool} {i : Nat}
    (h : bm.getD i true = false) : i < bm.length := by
  by_contra hge
  rw [List.getD_eq_getElem?_getD, List.getElem?_eq_none (Nat.le_of_not_lt hge)] at h
  simp at h

theorem getD_set_self {α : Type} (bm : List α) (i : Nat) (v : α) :
    (bm.set i v).getD i v = v := by
  rcases Nat.lt_or_ge i bm.length with hlt | hge
  · rw [List.getD_eq_getElem?_getD, List.getElem?_set_self (by simpa using hlt)]
    simp
  · rw [List.getD_eq_getElem?_getD, List.getElem?_eq_none (by simpa using hge)]
    simp

theorem getD_set_ne {α : Type} (bm : List α) {i j : Nat} (h : i ≠ j) (v d : α) :
    (bm.set i v).getD j d = bm.getD j d := by
  rw [List.getD_eq_getElem?_getD, List.getD_eq_getElem?_getD,
    List.getElem?_set_ne h]

theorem getD_replicate_true (n i : Nat) :
    (List.replicate n true).getD i true = true := by
  rw [List.getD_eq_getElem?_getD, List.getElem?_replicate]
  split <;> simp

theorem getD_replicate {α : Type} (c : α) (n i : Nat) :
    (List.replicate n c).getD i c = c := by
  rw [List.getD_eq_getElem?_getD, List.getElem?_replicate]
  split <;> simp

/-! ## Scan-loop specification -/

theorem firstFreeAux_some (bm : List Bool) :
    ∀ fuel idx i, firstFreeAux bm idx fuel = some i →
      idx ≤ i ∧ i < idx + fuel ∧ bm.getD i true = false ∧
        ∀ j, idx ≤ j → j < i → bm.getD j true = true := by
  intro fuel
  induction fuel with
  | zero => intro idx i h; simp [firstFreeAux] at h
  | succ fuel ih =>
    intro idx i h
    rw [firstFreeAux] at h
    by_cases hb : bm.getD idx true
    · rw [if_pos hb] at h
      obtain ⟨h1, h2, h3, h4⟩ := ih (idx + 1) i h
      refine ⟨by omega, by omega, h3, ?_⟩
      intro j hj1 hj2
      rcases Nat.eq_or_lt_of_le hj1 with rfl | hj1
      · exact hb
      · exact h4 j hj1 hj2
    · rw [if_neg hb] at h
      obtain rfl : idx = i := by simpa using h
      exact ⟨Nat.le_refl _, by omega, by simpa using hb, fun j hj1 hj2 => by omega⟩

theorem firstFreeAux_none (bm : List Bool) :
    ∀ fuel idx, firstFreeAux bm idx fuel = none →
      ∀ j, idx ≤ j → j < idx + fuel → bm.getD j true = true := by
  intro fuel
  induction fuel with
  | zero => intro idx _ j hj1 hj2; omega
  | succ fuel ih =>
    intro idx h j hj1 hj2
    rw [firstFreeAux] at h
    by_cases hb : bm.getD idx true
    · rw [if_pos hb] at h
      rcases Nat.eq_or_lt_of_le hj1 with rfl | hj1
      · exact hb
      · exact ih (idx + 1) h j hj1 (by omega)
    · rw [if_neg hb] at h
      exact absurd h (by simp)

theorem firstFree_some {bm : List Bool} {fc i : Nat}
    (h : firstFree bm fc = some i) :
    i < fc ∧ bm.getD i true = false ∧ ∀ j, j < i → bm.getD j true = true := by
  obtain ⟨_, h2, h3, h4⟩ := firstFreeAux_some bm fc 0 i h
  exact ⟨by omega, h3, fun j hj => h4 j (Nat.zero_le j) hj⟩

theorem firstFree_none {bm : List Bool} {fc : Nat}
    (h : firstFree bm fc = none) :
    ∀ j, j < fc → bm.getD j true = true := by
  intro j hj
  exact firstFreeAux_none bm fc 0 h j (Nat.zero_le j) (by omega)

/-- The scan finds the least free index when one exists. -/
theorem firstFree_eq_some_of_least {bm : List Bool} {fc i : Nat}
    (hi : i < fc) (hfree : bm.getD i true = false)
    (hleast : ∀ j, j < i → bm.getD j true = true) :
    firstFree bm fc = some i := by
  cases hff : firstFree bm fc with
  | none =>
    have h1 := firstFree_none hff i hi
    rw [hfree] at h1
    exact Bool.noConfusion h1
  | some i' =>
    obtain ⟨h1, h2, h3⟩ := firstFree_some hff
    rcases Nat.lt_trichotomy i i' with hlt | rfl | hgt
    · have h4 := h3 i hlt
      rw [hfree] at h4
      exact Bool.noConfusion h4
    · rfl
    · have h4 := hleast i' hgt
      rw [h2] at h4
      exact Bool.noConfusion h4

/-! ## Allocation sequences: the free-index characterization -/

theorem freeIndices_nil {a : BitmapFrameAllocator}
    (h : firstFree a.bitmap a.frame_count = none) : freeIndices a = [] := by
  rw [freeIndices, List.filter_eq_nil_iff]
  intro j hj
  rw [List.mem_range] at hj
  rw [firstFree_none h j hj]
  simp

/-- Allocating the least free index removes exactly the head of the
ascending free-index list. -/
theorem freeIndices_cons {a : BitmapFrameAllocator} {i : Nat}
    (h : firstFree a.bitmap a.frame_count = some i) :
    freeIndices a = i :: freeIndices (a.mark_used i) := by
  obtain ⟨hfc, hfree, hmin⟩ := firstFree_some h
  simp only [freeIndices, BitmapFrameAllocator.mark_used]
  have hsplit : List.range a.frame_count
      = List.range' 0 i ++ List.range' i (a.frame_count - i) := by
    have h0 := List.range'_append_1 0 i (a.frame_count - i)
    rw [Nat.zero_add] at h0
    rw [List.range_eq_range', h0]
    congr 1
    omega
  have hpos : a.frame_count - i = (a.frame_count - i - 1) + 1 := by omega
  rw [hsplit, hpos, List.range'_succ, List.filter_append, List.filter_append]
  have hlow : ∀ j ∈ List.range' 0 i, j < i := by
    intro j hj
    obtain ⟨k, hk, rfl⟩ := List.mem_range'.1 hj
    omega
  have hleft : (List.range' 0 i).filter (fun j => !a.bitmap.getD j true) = [] := by
    rw [List.filter_eq_nil_iff]
    intro j hj
    rw [hmin j (hlow j hj)]
    simp
  have hleft' :
      (List.range' 0 i).filter (fun j => !(a.bitmap.set i true).getD j true) = [] := by
    rw [List.filter_eq_nil_iff]
    intro j hj
    rw [getD_set_ne _ (by have := hlow j hj; omega) _ _, hmin j (hlow j hj)]
    simp
  have hmid : ∀ x ∈ List.range' (i + 1) (a.frame_count - i - 1),
      (fun j => !a.bitmap.getD j true) x
        = (fun j => !(a.bitmap.set i true).getD j true) x := by
    intro x hx
    obtain ⟨k, hk, rfl⟩ := List.mem_range'.1 hx
    dsimp only
    rw [getD_set_ne _ (by omega) _ _]
  rw [hleft, hleft', List.filter_cons, List.filter_cons, hfree, getD_set_self]
  simpa using List.filter_congr hmid

/-- Unfolding of `allocate_frame` on a successful scan. -/
theorem allocate_frame_eq_some {a : BitmapFrameAllocator} {i : Nat}
    (h : firstFree a.bitmap a.frame_count = some i) :
    a.allocate_frame = (some (i * 4096), a.mark_used i) := by
  rw [BitmapFrameAllocator.allocate_frame, h]

/-- Unfolding of `allocate_frame` on a failed scan. -/
theorem allocate_frame_eq_none {a : BitmapFrameAllocator}
    (h : firstFree a.bitmap a.frame_count = none) :
    a.allocate_frame = (none, a) := by
  rw [BitmapFrameAllocator.allocate_frame, h]

/-- The addresses handed out by `n` calls are exactly the first `n` free
indices of the starting bitmap, in ascending order, times 4096. -/
theorem allocRun_eq (n : Nat) : ∀ a : BitmapFrameAllocator,
    allocRun a n = ((freeIndices a).take n).map (· * 4096) := by
  induction n with
  | zero => intro a; simp [allocRun]
  | succ n ih =>
    intro a
    cases hff : firstFree a.bitmap a.frame_count with
    | some i =>
      rw [allocRun, allocate_frame_eq_some hff]
      dsimp only
      rw [freeIndices_cons hff, List.take_succ_cons, List.map_cons, ih]
    | none =>
      rw [allocRun, allocate_frame_eq_none hff]
      dsimp only
      rw [ih, freeIndices_nil hff]
      simp

/-- After `n` calls the remaining free indices are the original list with
its first `n` elements dropped. -/
theorem freeIndices_allocStateN (n : Nat) : ∀ a : BitmapFrameAllocator,
    freeIndices (allocStateN a n) = (freeIndices a).drop n := by
  induction n with
  | zero => intro a; simp [allocStateN]
  | succ n ih =>
    intro a
    cases hff : firstFree a.bitmap a.frame_count with
    | some i =>
      rw [allocStateN, allocate_frame_eq_some hff]
      dsimp only
      rw [ih, freeIndices_cons hff, List.drop_succ_cons]
    | none =>
      rw [allocStateN, allocate_frame_eq_none hff]
      dsimp only
      rw [ih, freeIndices_nil hff]
      simp

theorem allocate_none_iff (a : BitmapFrameAllocator) :
    a.allocate_frame.1 = none ↔ freeIndices a = [] := by
  cases hff : firstFree a.bitmap a.frame_count with
  | some i =>
    rw [allocate_frame_eq_some hff, freeIndices_cons hff]
    simp
  | none =>
    rw [allocate_frame_eq_none hff, freeIndices_nil hff]
    simp

/-- Membership in an allocation run implies the address comes from a frame
that was free (hence below `frame_count`) in the starting state. -/
theorem mem_allocRun {a : BitmapFrameAllocator} {n addr : Nat}
    (h : addr ∈ allocRun a n) :
    ∃ i, addr = i * 4096 ∧ i < a.frame_count ∧ a.bitmap.getD i true = false := by
  rw [allocRun_eq] at h
  obtain ⟨i, hi, rfl⟩ := List.mem_map.1 h
  have hmem := List.mem_of_mem_take hi
  rw [freeIndices, List.mem_filter] at hmem
  obtain ⟨hrange, hfree⟩ := hmem
  exact ⟨i, rfl, List.mem_range.1 hrange, by simpa using hfree⟩

/-! ## Construction of the bitmap: characterization of `new` -/

theorem getD_set_of_lt {α : Type} (bm : List α) {i : Nat} (h : i < bm.length)
    (v d : α) : (bm.set i v).getD i d = v := by
  rw [List.getD_eq_getElem?_getD, List.getElem?_set_self (by simpa using h)]
  simp

theorem new_ok {h : MemoryMapHolder} {a : BitmapFrameAllocator}
    (hok : BitmapFrameAllocator.new h = .ok a) :
    h.descriptor_size ≠ 0 ∧ bytesNeeded h ≤ BITMAP_STORAGE_SIZE_BYTES ∧
      a = ⟨(descs h).foldl (clearUsable (frameCountOf h))
            (List.replicate (bytesNeeded h * 8) true), frameCountOf h⟩ := by
  rw [BitmapFrameAllocator.new] at hok
  by_cases h0 : h.descriptor_size = 0
  · rw [if_pos h0] at hok
    exact absurd hok (by simp)
  · rw [if_neg h0] at hok
    by_cases h1 : BITMAP_STORAGE_SIZE_BYTES < bytesNeeded h
    · rw [if_pos h1] at hok
      exact absurd hok (by simp)
    · rw [if_neg h1] at hok
      refine ⟨h0, by omega, ?_⟩
      simpa using hok.symm

theorem foldl_clear_length (fc : Nat) (L : List Nat) : ∀ bm : List Bool,
    (L.foldl (fun bm j => if j < fc then bm.set j false else bm) bm).length
      = bm.length := by
  induction L with
  | nil => intro bm; rfl
  | cons j L ih =>
    intro bm
    rw [List.foldl_cons, ih]
    by_cases hj : j < fc
    · rw [if_pos hj, List.length_set]
    · rw [if_neg hj]

theorem clearUsable_length (fc : Nat) (bm : List Bool) (d : EfiMemoryDescriptor) :
    (clearUsable fc bm d).length = bm.length := by
  rw [clearUsable]
  by_cases ht : d.memory_type = EFI_CONVENTIONAL
  · rw [if_pos ht]
    exact foldl_clear_length fc _ bm
  · rw [if_neg ht]

/-- Effect of the inner frame-clearing loop on a single bit. -/
theorem foldl_clear_getD (fc : Nat) (L : List Nat) : ∀ (bm : List Bool), fc ≤ bm.length →
    ∀ i : Nat,
      ((L.foldl (fun bm j => if j < fc then bm.set j false else bm) bm).getD i true
          = false
        ↔ (bm.getD i true = false ∨ (i ∈ L ∧ i < fc))) := by
  induction L with
  | nil => intro bm _ i; simp
  | cons j L ih =>
    intro bm hlen i
    rw [List.foldl_cons]
    by_cases hj : j < fc
    · rw [if_pos hj]
      rw [ih (bm.set j false) (by rw [List.length_set]; exact hlen) i]
      by_cases hij : i = j
      · subst hij
        rw [getD_set_of_lt bm (by omega) false true]
        simp [hj]
      · rw [getD_set_ne bm (fun hh => hij hh.symm) false true]
        constructor
        · rintro (hb | hm)
          · exact Or.inl hb
          · exact Or.inr ⟨List.mem_cons_of_mem j hm.1, hm.2⟩
        · rintro (hb | hm)
          · exact Or.inl hb
          · rcases List.mem_cons.1 hm.1 with rfl | hmem
            · exact absurd rfl hij
            · exact Or.inr ⟨hmem, hm.2⟩
    · rw [if_neg hj]
      rw [ih bm hlen i]
      constructor
      · rintro (hb | hm)
        · exact Or.inl hb
        · exact Or.inr ⟨List.mem_cons_of_mem j hm.1, hm.2⟩
      · rintro (hb | hm)
        · exact Or.inl hb
        · rcases List.mem_cons.1 hm.1 with rfl | hmem
          · exact absurd hm.2 hj
          · exact Or.inr ⟨hmem, hm.2⟩

/-- A descriptor covers frame `i` when it is of conventional (usable) type
and `i` lies in `[start_frame, end_frame)` with `end_frame` computed in
wrapping arithmetic. -/
def coversFrame (d : EfiMemoryDescriptor) (i : Nat) : Prop :=
  d.memory_type = EFI_CONVENTIONAL ∧ d.physical_start / 4096 ≤ i ∧
    i < (d.physical_start / 4096 + d.number_of_pages) % U64_MOD

instance (d : EfiMemoryDescriptor) (i : Nat) : Decidable (coversFrame d i) := by
  rw [coversFrame]; infer_instance

/-- Effect of one `clearUsable` step on a single bit. -/
theorem clearUsable_getD (fc : Nat) (bm : List Bool) (d : EfiMemoryDescriptor)
    (hlen : fc ≤ bm.length) (i : Nat) :
    ((clearUsable fc bm d).getD i true = false
      ↔ (bm.getD i true = false ∨ (coversFrame d i ∧ i < fc))) := by
  rw [clearUsable]
  by_cases ht : d.memory_type = EFI_CONVENTIONAL
  · rw [if_pos ht]
    rw [foldl_clear_getD fc _ bm hlen i]
    have hmem : i ∈ List.range' (d.physical_start / 4096)
        ((d.physical_start / 4096 + d.number_of_pages) % U64_MOD
          - d.physical_start / 4096)
      ↔ (d.physical_start / 4096 ≤ i ∧
          i < (d.physical_start / 4096 + d.number_of_pages) % U64_MOD) := by
      rw [List.mem_range']
      constructor
      · rintro ⟨k, hk, rfl⟩
        omega
      · rintro ⟨hk1, hk2⟩
        exact ⟨i - d.physical_start / 4096, by omega, by omega⟩
    rw [hmem, coversFrame]
    constructor
    · rintro (hb | hm)
      · exact Or.inl hb
      · exact Or.inr ⟨⟨ht, hm.1⟩, hm.2⟩
    · rintro (hb | hm)
      · exact Or.inl hb
      · exact Or.inr ⟨hm.1.2, hm.2⟩
  · rw [if_neg ht]
    constructor
    · exact Or.inl
    · rintro (hb | hm)
      · exact hb
      · exact absurd hm.1.1 ht

/-- Effect of the whole descriptor walk on a single bit. -/
theorem foldl_clearUsable_getD (fc : Nat) (ds : List EfiMemoryDescriptor) :
    ∀ bm : List Bool, fc ≤ bm.length → ∀ i : Nat,
      ((ds.foldl (clearUsable fc) bm).getD i true = false
        ↔ (bm.getD i true = false ∨ ∃ d ∈ ds, coversFrame d i ∧ i < fc)) := by
  induction ds with
  | nil => intro bm _ i; simp
  | cons d ds ih =>
    intro bm hlen i
    rw [List.foldl_cons,
      ih (clearUsable fc bm d) (by rw [clearUsable_length]; exact hlen) i,
      clearUsable_getD fc bm d hlen i]
    constructor
    · rintro ((hb | hm) | ⟨d', hd', hc⟩)
      · exact Or.inl hb
      · exact Or.inr ⟨d, List.mem_cons_self d ds, hm⟩
      · exact Or.inr ⟨d', List.mem_cons_of_mem d hd', hc⟩
    · rintro (hb | ⟨d', hd', hc⟩)
      · exact Or.inl (Or.inl hb)
      · rcases List.mem_cons.1 hd' with rfl | hmem
        · exact Or.inl (Or.inr hc)
        · exact Or.inr ⟨d', hmem, hc⟩

/-- Characterization of the initial bitmap built by `new`: a bit is free
(false) exactly when its frame index is below `frame_count` and covered by
some usable descriptor. -/
theorem new_bitmap_getD {h : MemoryMapHolder} {a : BitmapFrameAllocator}
    (hok : BitmapFrameAllocator.new h = .ok a) (i : Nat) :
    (a.bitmap.getD i true = false
      ↔ (i < a.frame_count ∧ ∃ d ∈ descs h, coversFrame d i)) := by
  obtain ⟨-, -, rfl⟩ := new_ok hok
  have hlen : frameCountOf h ≤ (List.replicate (bytesNeeded h * 8) true).length := by
    rw [List.length_replicate]
    rw [bytesNeeded]
    omega
  rw [foldl_clearUsable_getD (frameCountOf h) (descs h) _ hlen i]
  rw [getD_replicate_true]
  constructor
  · rintro (hb | ⟨d, hd, hc, hi⟩)
    · exact Bool.noConfusion hb
    · exact ⟨hi, d, hd, hc⟩
  · rintro ⟨hi, d, hd, hc⟩
    exact Or.inr ⟨d, hd, hc, hi⟩

/-! ## The max-address computation -/

theorem maxAddrStep_eq (m : Nat) (d : EfiMemoryDescriptor) :
    maxAddrStep m d
      = max m (if descEnd d ≤ 0x100000000 then descEnd d else 0) := by
  rw [maxAddrStep]
  by_cases hc : descEnd d ≤ 0x100000000
  · rw [if_pos hc]
    by_cases hm : m < descEnd d
    · rw [if_pos ⟨hc, hm⟩]
      omega
    · rw [if_neg (fun hh => hm hh.2)]
      omega
  · rw [if_neg (fun hh => hc hh.1), if_neg hc]
    omega

theorem foldl_maxAddrStep_eq (l : List EfiMemoryDescriptor) : ∀ acc : Nat,
    l.foldl maxAddrStep acc
      = max acc
          (((l.map descEnd).filter (fun e => decide (e ≤ 0x100000000))).foldr
            max 0) := by
  induction l with
  | nil => intro acc; simp
  | cons d l ih =>
    intro acc
    rw [List.foldl_cons, ih (maxAddrStep acc d), maxAddrStep_eq, List.map_cons,
      List.filter_cons]
    by_cases hc : descEnd d ≤ 0x100000000
    · have hc' : decide (descEnd d ≤ 0x100000000) = true := by simpa using hc
      rw [if_pos hc, hc', if_pos rfl, List.foldr_cons]
      omega
    · have hc' : decide (descEnd d ≤ 0x100000000) = false := by simpa using hc
      rw [if_neg hc, hc']
      simp only [Bool.false_eq_true, if_false]
      omega

theorem maxAddr_le_cap (h : MemoryMapHolder) : maxAddr h ≤ 2 ^ 32 := by
  rw [maxAddr]
  have hgen : ∀ (l : List EfiMemoryDescriptor) (acc : Nat), acc ≤ 2 ^ 32 →
      l.foldl maxAddrStep acc ≤ 2 ^ 32 := by
    intro l
    induction l with
    | nil => intro acc hacc; exact hacc
    | cons d l ih =>
      intro acc hacc
      rw [List.foldl_cons]
      apply ih
      rw [maxAddrStep_eq]
      by_cases hc : descEnd d ≤ 0x100000000
      · rw [if_pos hc]
        omega
      · rw [if_neg hc]
        omega
  exact hgen (descs h) 0 (by omega)

/-! ## Claim theorems: allocator behaviour -/

/-- Claim C1: for every initial bitmap state and every sequence of
`allocate_frame` calls, the physical addresses of all successful results
are pairwise distinct — no frame address is ever returned twice. -/
theorem allocate_frame_exclusivity (a : BitmapFrameAllocator) (n : Nat) :
    (allocRun a n).Nodup := by
  rw [allocRun_eq]
  refine List.Nodup.map (fun x y hxy => by omega) ?_
  exact List.Nodup.sublist (List.take_sublist _ _)
    (List.Nodup.filter _ (List.nodup_range _))

/-- Claim C7: `allocate_frame` returns `None` exactly when no free bit
exists below `frame_count`; when a free bit exists it picks the smallest
free index, marks it used and returns `index * 4096`; and the bitmap built
by `new` has a bit free exactly when the frame index is below
`frame_count` and covered by a Usable-type (EfiConventionalMemory)
descriptor — all other bits keep their initial used (1) value. -/
theorem allocate_frame_scan_and_init_spec :
    (∀ a : BitmapFrameAllocator,
      (a.allocate_frame.1 = none ↔
        ∀ i, i < a.frame_count → a.bitmap.getD i true = true) ∧
      ∀ i, i < a.frame_count → a.bitmap.getD i true = false →
        (∀ j, j < i → a.bitmap.getD j true = true) →
        a.allocate_frame = (some (i * 4096), a.mark_used i)) ∧
    ∀ h a, BitmapFrameAllocator.new h = .ok a →
      ∀ i, (a.bitmap.getD i true = false ↔
        (i < a.frame_count ∧ ∃ d ∈ descs h, coversFrame d i)) := by
  constructor
  · intro a
    constructor
    · constructor
      · intro hnone i hi
        cases hff : firstFree a.bitmap a.frame_count with
        | some j =>
          rw [allocate_frame_eq_some hff] at hnone
          exact absurd hnone (by simp)
        | none => exact firstFree_none hff i hi
      · intro hall
        cases hff : firstFree a.bitmap a.frame_count with
        | some j =>
          obtain ⟨hj, hfree, -⟩ := firstFree_some hff
          rw [hall j hj] at hfree
          exact Bool.noConfusion hfree
        | none => rw [allocate_frame_eq_none hff]
    · intro i hi hfree hmin
      exact allocate_frame_eq_some (firstFree_eq_some_of_least hi hfree hmin)
  · intro h a hok i
    exact new_bitmap_getD hok i

/-- Claim C9: every address returned by a successful `allocate_frame` on an
allocator built by `new` is 4096-aligned, below `frame_count * 4096`, and
that bound is at most 4 GiB, so the frame lies inside the identity-mapped
range. -/
theorem allocated_frames_aligned_and_bounded (h : MemoryMapHolder)
    (a : BitmapFrameAllocator) (hok : BitmapFrameAllocator.new h = .ok a) :
    a.frame_count * 4096 ≤ 2 ^ 32 ∧
    ∀ n addr, addr ∈ allocRun a n →
      addr % 4096 = 0 ∧ addr < a.frame_count * 4096 ∧ addr < 4 * 2 ^ 30 := by
  have hfc : a.frame_count * 4096 ≤ 2 ^ 32 := by
    obtain ⟨-, -, rfl⟩ := new_ok hok
    show frameCountOf h * 4096 ≤ 2 ^ 32
    have h1 := maxAddr_le_cap h
    have h2 : maxAddr h / 4096 * 4096 ≤ maxAddr h := Nat.div_mul_le_self _ _
    rw [frameCountOf]
    omega
  refine ⟨hfc, ?_⟩
  intro n addr hmem
  obtain ⟨i, rfl, hi, -⟩ := mem_allocRun hmem
  have hlt : i * 4096 < a.frame_count * 4096 :=
    Nat.mul_lt_mul_of_pos_right hi (by omega)
  exact ⟨Nat.mul_mod_left i 4096, hlt, by omega⟩

/-! ## Claim theorems: construction errors and frame count -/

/-- Claim C8: given a nonzero descriptor stride, `new` fails with the
bitmap-too-small panic exactly when `ceil(frame_count/8)` bytes exceed the
fixed 102400-byte storage; when the capacity suffices, construction
completes. -/
theorem new_capacity_spec (h : MemoryMapHolder) (hds : h.descriptor_size ≠ 0) :
    (BITMAP_STORAGE_SIZE_BYTES < bytesNeeded h ↔
      BitmapFrameAllocator.new h = .error .bitmapTooSmall) ∧
    (bytesNeeded h ≤ BITMAP_STORAGE_SIZE_BYTES →
      ∃ a, BitmapFrameAllocator.new h = .ok a) := by
  constructor
  · constructor
    · intro hc
      rw [BitmapFrameAllocator.new, if_neg hds, if_pos hc]
    · intro he
      by_contra hc
      rw [BitmapFrameAllocator.new, if_neg hds, if_neg hc] at he
      exact absurd he (by simp)
  · intro hc
    rw [BitmapFrameAllocator.new, if_neg hds, if_neg (by omega)]
    exact ⟨_, rfl⟩

/-- Claim C10: `new` fails with the descriptor-size-zero panic exactly on
snapshots whose recorded stride is zero; with a nonzero stride that panic
branch is unreachable. -/
theorem new_descriptor_size_zero_spec (h : MemoryMapHolder) :
    (h.descriptor_size = 0 →
      BitmapFrameAllocator.new h = .error .descriptorSizeZero) ∧
    (h.descriptor_size ≠ 0 →
      BitmapFrameAllocator.new h ≠ .error .descriptorSizeZero) := by
  constructor
  · intro h0
    rw [BitmapFrameAllocator.new, if_pos h0]
  · intro h0
    rw [BitmapFrameAllocator.new, if_neg h0]
    by_cases h1 : BITMAP_STORAGE_SIZE_BYTES < bytesNeeded h
    · rw [if_pos h1]
      simp
    · rw [if_neg h1]
      simp

/-- Claim C3 (amended): `frame_count` equals the highest end-address not
exceeding 4 GiB among ALL descriptors of the snapshot (any memory type),
divided by 4096; descriptors whose end exceeds 4 GiB are ignored entirely
rather than capped. -/
theorem frame_count_spec (h : MemoryMapHolder) (a : BitmapFrameAllocator)
    (hok : BitmapFrameAllocator.new h = .ok a) :
    a.frame_count
      = (((descs h).map descEnd).filter
          (fun e => decide (e ≤ 0x100000000))).foldr max 0 / 4096 := by
  obtain ⟨-, -, rfl⟩ := new_ok hok
  show frameCountOf h = _
  rw [frameCountOf, maxAddr, foldl_maxAddrStep_eq, Nat.zero_max]

/-! ## Concrete snapshots for tests, counterexamples and witnesses -/

/-- Little-endian encoding of `v` into `n` bytes. -/
def encodeLE : Nat → Nat → List Nat
  | _, 0 => []
  | v, n + 1 => v % 256 :: encodeLE (v / 256) n

/-- The 40 raw bytes of a descriptor record in repr(C) layout. -/
def encodeDesc (t start pages : Nat) : List Nat :=
  encodeLE t 4 ++ encodeLE 0 4 ++ encodeLE start 8 ++ encodeLE 0 8 ++
    encodeLE pages 8 ++ encodeLE 0 8

/-- The synthetic memory map of the coverage-fidelity test:
Usable `[0, 256 pages)`, Reserved `[256·4096, 16 pages)`,
Usable `[272·4096, 100 pages)`. -/
def holderSynthetic : MemoryMapHolder :=
  { memory_map_buffer :=
      encodeDesc EFI_CONVENTIONAL 0 256 ++ encodeDesc 0 (256 * 4096) 16 ++
        encodeDesc EFI_CONVENTIONAL (272 * 4096) 100
  , memory_map_size := 120
  , descriptor_size := 40 }

example : descs holderSynthetic
    = [⟨7, 0, 256⟩, ⟨0, 256 * 4096, 16⟩, ⟨7, 272 * 4096, 100⟩] := by decide

/-- The allocator built from the synthetic map. -/
def allocSynthetic : BitmapFrameAllocator :=
  match BitmapFrameAllocator.new holderSynthetic with
  | .ok a => a
  | .error _ => ⟨[], 0⟩

/-- A snapshot with a single Usable region straddling the 4 GiB boundary:
start `2^32 - 4096`, 2 pages, so its end is `2^32 + 4096`. -/
def holderPast4GiB : MemoryMapHolder :=
  { memory_map_buffer := encodeDesc EFI_CONVENTIONAL (2 ^ 32 - 4096) 2
  , memory_map_size := 40
  , descriptor_size := 40 }

/-- A snapshot with a Usable page at 0 followed by a Reserved page at 4096. -/
def holderUsableThenReserved : MemoryMapHolder :=
  { memory_map_buffer := encodeDesc EFI_CONVENTIONAL 0 1 ++ encodeDesc 0 4096 1
  , memory_map_size := 80
  , descriptor_size := 40 }

/-- A snapshot whose single (reserved) descriptor ends exactly at 4 GiB,
forcing `frame_count = 2^20` and a bitmap of 131072 bytes. -/
def holderHuge : MemoryMapHolder :=
  { memory_map_buffer := encodeDesc 0 0 (2 ^ 20)
  , memory_map_size := 40
  , descriptor_size := 40 }

/-- A snapshot with a zero recorded descriptor stride. -/
def holderZeroStride : MemoryMapHolder :=
  { memory_map_buffer := [], memory_map_size := 0, descriptor_size := 0 }

/-- Claim C3 counterexample: the code derives `frame_count` neither from
usable regions only nor with capping.  (i) For a single Usable region
ending at `2^32 + 4096` the claim predicts
`min(end, 4 GiB)/4096 = 2^20`, but the code ignores the region entirely
and produces `frame_count = 0`.  (ii) With a Usable region ending at 4096
and a Reserved region ending at 8192 the claim predicts
`min(4096, 4 GiB)/4096 = 1`, but the code also counts the reserved region
and produces `frame_count = 2`. -/
theorem frame_count_cap_counterexample :
    (descAt holderPast4GiB 0).memory_type = EFI_CONVENTIONAL ∧
    descEnd (descAt holderPast4GiB 0) = 2 ^ 32 + 4096 ∧
    min (2 ^ 32 + 4096) (2 ^ 32) / 4096 = 2 ^ 20 ∧
    BitmapFrameAllocator.new holderPast4GiB = .ok ⟨[], 0⟩ ∧
    (0 : Nat) ≠ 2 ^ 20 ∧
    min 4096 (2 ^ 32) / 4096 = 1 ∧
    BitmapFrameAllocator.new holderUsableThenReserved
      = .ok ⟨[false, true, true, true, true, true, true, true], 2⟩ ∧
    (2 : Nat) ≠ 1 := by
  decide

/-- Claim C3 witness for the amended statement, at the two-descriptor
snapshot with mixed types. -/
theorem frame_count_spec_witness :
    (⟨[false, true, true, true, true, true, true, true], 2⟩ :
        BitmapFrameAllocator).frame_count
      = (((descs holderUsableThenReserved).map descEnd).filter
          (fun e => decide (e ≤ 0x100000000))).foldr max 0 / 4096 :=
  frame_count_spec holderUsableThenReserved _ (by decide)

/-- Claim C2: on the synthetic map the allocator yields exactly 356
successful frames, the 357th call returns `None`, and no returned address
lies in the reserved gap `[256·4096, 272·4096)`. -/
theorem synthetic_map_coverage :
    BitmapFrameAllocator.new holderSynthetic = .ok allocSynthetic ∧
    (allocRun allocSynthetic 356).length = 356 ∧
    (allocStateN allocSynthetic 356).allocate_frame.1 = none ∧
    ∀ addr ∈ allocRun allocSynthetic 356,
      ¬(256 * 4096 ≤ addr ∧ addr < 272 * 4096) := by
  have hfree : freeIndices allocSynthetic
      = List.range 256 ++ List.range' 272 100 := by decide
  refine ⟨by decide, ?_, ?_, ?_⟩
  · rw [allocRun_eq, hfree, List.length_map, List.length_take]
    decide
  · rw [allocate_none_iff, freeIndices_allocStateN, hfree]
    decide
  · intro addr hmem
    rw [allocRun_eq, hfree] at hmem
    obtain ⟨i, hi, rfl⟩ := List.mem_map.1 hmem
    have hi' := List.mem_of_mem_take hi
    rw [List.mem_append] at hi'
    rcases hi' with hr | hr
    · rw [List.mem_range] at hr
      omega
    · obtain ⟨k, hk, rfl⟩ := List.mem_range'.1 hr
      omega

/-- Claim C2 witness: the gap condition applied at the concrete first
returned address. -/
theorem synthetic_map_coverage_witness :
    ¬(256 * 4096 ≤ 0 ∧ 0 < 272 * 4096) :=
  synthetic_map_coverage.2.2.2 0 (by rw [allocRun_eq]; decide)

/-- Claim C7 witness: the scan picks the least free index on a concrete
state, and the bitmap built from a concrete snapshot frees exactly the
frames of its usable descriptor. -/
theorem allocate_frame_scan_and_init_spec_witness :
    BitmapFrameAllocator.allocate_frame ⟨[true, false, false], 3⟩
        = (some (1 * 4096),
           BitmapFrameAllocator.mark_used ⟨[true, false, false], 3⟩ 1) ∧
    ((⟨[false, true, true, true, true, true, true, true], 2⟩ :
        BitmapFrameAllocator).bitmap.getD 0 true = false ↔
      (0 < 2 ∧ ∃ d ∈ descs holderUsableThenReserved, coversFrame d 0)) := by
  constructor
  · exact (allocate_frame_scan_and_init_spec.1 _).2 1 (by decide) (by decide)
      (fun j hj => by
        have hj0 : j = 0 := by omega
        subst hj0
        decide)
  · exact allocate_frame_scan_and_init_spec.2 holderUsableThenReserved
      ⟨[false, true, true, true, true, true, true, true], 2⟩ (by decide) 0

/-- Claim C8 witness: a snapshot whose frame count needs 131072 bitmap
bytes trips the capacity panic, and a small snapshot constructs fine. -/
theorem new_capacity_spec_witness :
    BitmapFrameAllocator.new holderHuge = .error .bitmapTooSmall ∧
    ∃ a, BitmapFrameAllocator.new holderUsableThenReserved = .ok a := by
  constructor
  · exact (new_capacity_spec holderHuge (by decide)).1.1 (by decide)
  · exact (new_capacity_spec holderUsableThenReserved (by decide)).2 (by decide)

/-- Claim C10 witness: the zero-stride snapshot panics with the
descriptor-size message; a nonzero-stride snapshot never does. -/
theorem new_descriptor_size_zero_spec_witness :
    BitmapFrameAllocator.new holderZeroStride = .error .descriptorSizeZero ∧
    BitmapFrameAllocator.new holderUsableThenReserved
      ≠ .error .descriptorSizeZero :=
  ⟨(new_descriptor_size_zero_spec holderZeroStride).1 rfl,
    (new_descriptor_size_zero_spec holderUsableThenReserved).2 (by decide)⟩

/-- Claim C9 witness: at the concrete two-frame allocator, the bound holds
and the first allocated address 0 is aligned and in range. -/
theorem allocated_frames_aligned_and_bounded_witness :
    ((⟨[false, true, true, true, true, true, true, true], 2⟩ :
        BitmapFrameAllocator).frame_count * 4096 ≤ 2 ^ 32) ∧
    (0 % 4096 = 0 ∧ 0 < 2 * 4096 ∧ 0 < 4 * 2 ^ 30) := by
  have h := allocated_frames_aligned_and_bounded holderUsableThenReserved
    ⟨[false, true, true, true, true, true, true, true], 2⟩ (by decide)
  exact ⟨h.1, h.2 1 0 (by decide)⟩

/-! ## ExitBootServices handshake (src/main.rs, src/efi.rs)

The firmware is abstracted as a state machine: `get_memory_map` refreshes
the holder and stores a fresh map key (the only holder field the exit
call reads), `exit_boot_services` consumes an offered key and reports
success or failure.  `EfiStatus` has only the `Success` variant, so the
`assert_eq!` after `call_get_memory_map` can never fire and is not
modelled. -/

/-- An abstract firmware services table. -/
structure Firmware (σ : Type) where
  get_memory_map : σ → σ × Nat
  exit_boot_services : σ → Nat → σ × Bool

/-- Observable firmware operations, in call order. -/
inductive FwCall where
  | getMap (key : Nat)
  | exitCall (key : Nat) (success : Bool)
deriving Repr, DecidableEq

/-- Embedding of `exit_from_efi_boot_services`: loop { recapture the
memory map (storing a fresh key in the holder); attempt exit with that
key; break on success }.  The Rust loop is unbounded, so the model takes
a fuel bound; `none` in the first component means the loop was still
running when the fuel ran out.  The second component is the trace of
firmware calls performed. -/
def exit_from_efi_boot_services {σ : Type} (fw : Firmware σ) :
    Nat → σ → Option Unit × List FwCall × σ
  | 0, s => (none, [], s)
  | fuel + 1, s =>
    if (fw.exit_boot_services (fw.get_memory_map s).1 (fw.get_memory_map s).2).2
    then
      (some (),
       [.getMap (fw.get_memory_map s).2, .exitCall (fw.get_memory_map s).2 true],
       (fw.exit_boot_services (fw.get_memory_map s).1 (fw.get_memory_map s).2).1)
    else
      ((exit_from_efi_boot_services fw fuel
          (fw.exit_boot_services (fw.get_memory_map s).1
            (fw.get_memory_map s).2).1).1,
       .getMap (fw.get_memory_map s).2 ::
         .exitCall (fw.get_memory_map s).2 false ::
         (exit_from_efi_boot_services fw fuel
           (fw.exit_boot_services (fw.get_memory_map s).1
             (fw.get_memory_map s).2).1).2.1,
       (exit_from_efi_boot_services fw fuel
         (fw.exit_boot_services (fw.get_memory_map s).1
           (fw.get_memory_map s).2).1).2.2)

/-- A well-formed handshake trace: a strict alternation of map captures
and exit attempts, each exit attempt offering exactly the key of the
capture immediately before it, every exit but the last failing, and the
trace ending at the first successful exit with no call after it. -/
def goodTrace : List FwCall → Prop
  | [.getMap k, .exitCall k' true] => k = k'
  | .getMap k :: .exitCall k' false :: rest => k = k' ∧ goodTrace rest
  | _ => False

/-- A firmware stub that rejects the first exit attempt and accepts any
exit offering a freshly recaptured key.  State: (map generation,
exit attempts so far). -/
def stubFirmware : Firmware (Nat × Nat) :=
  { get_memory_map := fun s => ((s.1 + 1, s.2), s.1 + 1)
  , exit_boot_services := fun s k => ((s.1, s.2 + 1), decide (1 ≤ s.2 ∧ k = s.1)) }

/-- Claim C5: whenever the handshake loop terminates, its firmware-call
trace recaptures the map before every exit attempt, offers exactly the
most recently captured key, stops at the first success and performs no
firmware call afterwards; and on the stub firmware that rejects the first
offered key and accepts a freshly recaptured one, the loop terminates in
exactly 2 iterations (independent of remaining fuel). -/
theorem exit_handshake_spec :
    (∀ (σ : Type) (fw : Firmware σ) (fuel : Nat) (s : σ) (tr : List FwCall)
        (s' : σ),
      exit_from_efi_boot_services fw fuel s = (some (), tr, s') →
        goodTrace tr) ∧
    ∀ n : Nat, exit_from_efi_boot_services stubFirmware (n + 2) (0, 0)
      = (some (),
         [.getMap 1, .exitCall 1 false, .getMap 2, .exitCall 2 true], (2, 2)) := by
  constructor
  · intro σ fw fuel
    induction fuel with
    | zero =>
      intro s tr s' h
      rw [exit_from_efi_boot_services] at h
      exact absurd h (by simp)
    | succ fuel ih =>
      intro s tr s' h
      rw [exit_from_efi_boot_services] at h
      by_cases hok :
          (fw.exit_boot_services (fw.get_memory_map s).1
            (fw.get_memory_map s).2).2
      · rw [if_pos hok] at h
        simp only [Prod.mk.injEq] at h
        obtain ⟨-, h2, -⟩ := h
        subst h2
        exact rfl
      · rw [if_neg hok] at h
        simp only [Prod.mk.injEq] at h
        obtain ⟨h1, h2, h3⟩ := h
        subst h2
        refine ⟨rfl, ?_⟩
        apply ih _ _ _
        rw [← h1]
  · intro n
    rfl

/-- Claim C5 witness: the concrete two-iteration stub trace is
well-formed. -/
theorem exit_handshake_spec_witness :
    goodTrace [.getMap 1, .exitCall 1 false, .getMap 2, .exitCall 2 true] :=
  exit_handshake_spec.1 (Nat × Nat) stubFirmware 2 (0, 0) _ (2, 2)
    (exit_handshake_spec.2 0)

/-! ## Identity paging (src/memory/mapper.rs) -/

def PAGE_PRESENT : Nat := 1

def PAGE_WRITABLE : Nat := 2

def PAGE_HUGE : Nat := 128

/-- The two static page tables (512 8-byte entries each) and the CR3
register value. -/
structure PagingState where
  pml4 : List Nat
  pdp : List Nat
  cr3 : Nat
deriving Repr, DecidableEq

/-- The zero-initialized static tables before `init_paging` runs. -/
def initialPagingState : PagingState :=
  { pml4 := List.replicate 512 0, pdp := List.replicate 512 0, cr3 := 0 }

/-- Embedding of `init_paging`, parameterized by the (link-time) physical
addresses of the two static tables: fills PDP entries 0..4 with 1 GiB
huge-page descriptors `(i << 30) | PRESENT | WRITABLE | HUGE`, points
PML4 entry 0 at the PDP table with `PRESENT | WRITABLE`, and loads CR3
with the frame containing the PML4 table. -/
def init_paging (pdpAddr pml4Addr : Nat) (s : PagingState) : PagingState :=
  { pdp := (List.range 4).foldl
      (fun t i =>
        t.set i ((i * 2 ^ 30) ||| PAGE_PRESENT ||| PAGE_WRITABLE ||| PAGE_HUGE))
      s.pdp
  , pml4 := s.pml4.set 0 (pdpAddr ||| PAGE_PRESENT ||| PAGE_WRITABLE)
  , cr3 := pml4Addr / 4096 * 4096 }

/-- Hardware page-walk semantics over the modelled tables for a canonical
(48-bit) virtual address: index PML4 with bits 39..47; a present entry
whose address bits designate the modelled PDP table leads to the PDP
entry at bits 30..38; a present+huge PDP entry maps a 1 GiB page.
Returns `none` for non-present entries, entries pointing outside the
modelled tables, and non-huge directory pointers (not modelled). -/
def translateAddr (s : PagingState) (pdpAddr : Nat) (v : Nat) : Option Nat :=
  if s.pml4.getD (v / 2 ^ 39 % 512) 0 % 2 = 1 then
    if s.pml4.getD (v / 2 ^ 39 % 512) 0 % 2 ^ 52 / 2 ^ 12 * 2 ^ 12 = pdpAddr then
      if s.pdp.getD (v / 2 ^ 30 % 512) 0 % 2 = 1 then
        if s.pdp.getD (v / 2 ^ 30 % 512) 0 / 128 % 2 = 1 then
          some (s.pdp.getD (v / 2 ^ 30 % 512) 0 % 2 ^ 52 / 2 ^ 30 * 2 ^ 30
            + v % 2 ^ 30)
        else none
      else none
    else none
  else none

theorem init_paging_pdp_getD (pdpAddr pml4Addr : Nat) : ∀ j : Nat,
    (init_paging pdpAddr pml4Addr initialPagingState).pdp.getD j 0
      = if j < 4 then j * 2 ^ 30 + 131 else 0 := by
  intro j
  show (((((List.replicate 512 0).set 0 _).set 1 _).set 2 _).set 3 _).getD j 0 = _
  match j with
  | 0 => decide
  | 1 => decide
  | 2 => decide
  | 3 => decide
  | j + 4 =>
    have hne3 : (3 : Nat) ≠ j + 4 := by omega
    have hne2 : (2 : Nat) ≠ j + 4 := by omega
    have hne1 : (1 : Nat) ≠ j + 4 := by omega
    have hne0 : (0 : Nat) ≠ j + 4 := by omega
    rw [getD_set_ne _ hne3 _ _, getD_set_ne _ hne2 _ _, getD_set_ne _ hne1 _ _,
      getD_set_ne _ hne0 _ _, getD_replicate, if_neg (by omega)]

theorem init_paging_pml4_getD (pdpAddr pml4Addr : Nat) (hal : pdpAddr % 4096 = 0) :
    ∀ j : Nat,
      (init_paging pdpAddr pml4Addr initialPagingState).pml4.getD j 0
        = if j = 0 then pdpAddr + 3 else 0 := by
  intro j
  have hlor : pdpAddr ||| PAGE_PRESENT ||| PAGE_WRITABLE = pdpAddr + 3 := by
    have h12 : (PAGE_PRESENT ||| PAGE_WRITABLE) = 3 := by decide
    have hq : 2 ^ 12 * (pdpAddr / 2 ^ 12) = pdpAddr := by omega
    have h3 := Nat.mul_add_lt_is_or (b := 3) (i := 12) (by norm_num)
      (pdpAddr / 2 ^ 12)
    rw [Nat.lor_assoc, h12, ← hq, ← h3]
  show ((List.replicate 512 0).set 0
      (pdpAddr ||| PAGE_PRESENT ||| PAGE_WRITABLE)).getD j 0 = _
  match j with
  | 0 =>
    rw [getD_set_of_lt _ (by simp) _ _, if_pos rfl, hlor]
  | j + 1 =>
    have hne : (0 : Nat) ≠ j + 1 := by omega
    rw [getD_set_ne _ hne _ _, getD_replicate, if_neg (by omega)]

/-- Claim C6: after `init_paging`, PDP entries 0..4 hold the 1 GiB
huge-page descriptors `i·2^30 + (present+writable+huge)`, all higher PDP
entries are still zero, the PML4 has exactly one populated entry — index
0, pointing at the PDP table with present+writable — and the resulting
page walk maps a canonical virtual address `v` to `v` exactly when
`v < 4 GiB`, with no partial or sparse mapping. -/
theorem init_paging_spec (pdpAddr pml4Addr : Nat)
    (hal : pdpAddr % 4096 = 0) (hsz : pdpAddr < 2 ^ 52) :
    (∀ i, i < 4 →
      (init_paging pdpAddr pml4Addr initialPagingState).pdp.getD i 0
        = i * 2 ^ 30 + (PAGE_PRESENT + PAGE_WRITABLE + PAGE_HUGE)) ∧
    (∀ j, 4 ≤ j →
      (init_paging pdpAddr pml4Addr initialPagingState).pdp.getD j 0 = 0) ∧
    ((init_paging pdpAddr pml4Addr initialPagingState).pml4.getD 0 0
      = pdpAddr + (PAGE_PRESENT + PAGE_WRITABLE)) ∧
    (∀ j, 1 ≤ j →
      (init_paging pdpAddr pml4Addr initialPagingState).pml4.getD j 0 = 0) ∧
    (∀ v, v < 2 ^ 48 →
      translateAddr (init_paging pdpAddr pml4Addr initialPagingState) pdpAddr v
        = if v < 4 * 2 ^ 30 then some v else none) := by
  have hpdp := init_paging_pdp_getD pdpAddr pml4Addr
  have hpml4 := init_paging_pml4_getD pdpAddr pml4Addr hal
  refine ⟨?_, ?_, ?_, ?_, ?_⟩
  · intro i hi
    rw [hpdp i, if_pos hi]
    rfl
  · intro j hj
    rw [hpdp j, if_neg (by omega)]
  · rw [hpml4 0, if_pos rfl]
    rfl
  · intro j hj
    rw [hpml4 j, if_neg (by omega)]
  · intro v hv
    by_cases hv4 : v < 4 * 2 ^ 30
    · rw [translateAddr,
        show v / 2 ^ 39 % 512 = 0 from by omega, hpml4 0, if_pos rfl,
        if_pos (by omega), if_pos (by omega),
        show v / 2 ^ 30 % 512 = v / 2 ^ 30 from by omega, hpdp (v / 2 ^ 30),
        if_pos (show v / 2 ^ 30 < 4 from by omega),
        if_pos (show (v / 2 ^ 30 * 2 ^ 30 + 131) % 2 = 1 from by omega),
        if_pos (show (v / 2 ^ 30 * 2 ^ 30 + 131) / 128 % 2 = 1 from by omega),
        if_pos hv4]
      congr 1
      omega
    · rw [if_neg hv4, translateAddr]
      by_cases hbig : v < 2 ^ 39
      · rw [show v / 2 ^ 39 % 512 = 0 from by omega, hpml4 0, if_pos rfl,
          if_pos (by omega), if_pos (by omega),
          show v / 2 ^ 30 % 512 = v / 2 ^ 30 from by omega, hpdp (v / 2 ^ 30),
          if_neg (show ¬v / 2 ^ 30 < 4 from by omega)]
        rw [if_neg (by omega)]
      · rw [show v / 2 ^ 39 % 512 = v / 2 ^ 39 from by omega,
          hpml4 (v / 2 ^ 39), if_neg (show ¬v / 2 ^ 39 = 0 from by omega)]
        rw [if_neg (by omega)]

/-- Claim C6 witness: concrete table addresses (PDP at 4096, PML4 at
8192), with a sample mapped address in the fourth gigabyte and the first
unmapped address. -/
theorem init_paging_spec_witness :
    ((init_paging 4096 8192 initialPagingState).pdp.getD 2 0
      = 2 * 2 ^ 30 + (PAGE_PRESENT + PAGE_WRITABLE + PAGE_HUGE)) ∧
    ((init_paging 4096 8192 initialPagingState).pdp.getD 4 0 = 0) ∧
    ((init_paging 4096 8192 initialPagingState).pml4.getD 0 0
      = 4096 + (PAGE_PRESENT + PAGE_WRITABLE)) ∧
    (translateAddr (init_paging 4096 8192 initialPagingState) 4096
        (3 * 2 ^ 30 + 12345)
      = if 3 * 2 ^ 30 + 12345 < 4 * 2 ^ 30 then some (3 * 2 ^ 30 + 12345)
        else none) ∧
    (translateAddr (init_paging 4096 8192 initialPagingState) 4096 (4 * 2 ^ 30)
      = if 4 * 2 ^ 30 < 4 * 2 ^ 30 then some (4 * 2 ^ 30) else none) := by
  have h := init_paging_spec 4096 8192 (by norm_num) (by norm_num)
  exact ⟨h.1 2 (by norm_num), h.2.1 4 (by norm_num), h.2.2.1,
    h.2.2.2.2 _ (by norm_num), h.2.2.2.2 _ (by norm_num)⟩

/-! ## Stride independence of the descriptor walk -/

theorem readLE_congr (b1 b2 : List Nat) : ∀ (n off : Nat),
    (∀ o, o < n → b2.getD (off + o) 0 % 256 = b1.getD (off + o) 0 % 256) →
    readLE b2 off n = readLE b1 off n := by
  intro n
  induction n with
  | zero => intro off _; rfl
  | succ n ih =>
    intro off hb
    rw [readLE, readLE]
    have h0 : b2.getD off 0 % 256 = b1.getD off 0 % 256 := by
      have := hb 0 (by omega)
      simpa using this
    rw [h0, ih (off + 1) (fun o ho => by
      have h1 := hb (o + 1) (by omega)
      rw [show off + (o + 1) = off + 1 + o from by omega] at h1
      exact h1)]

theorem descAt_congr (h1 h2 : MemoryMapHolder) (i : Nat)
    (hs : h2.descriptor_size = h1.descriptor_size)
    (hb : ∀ o, o < 32 → (o < 4 ∨ (8 ≤ o ∧ o < 16) ∨ (24 ≤ o ∧ o < 32)) →
      h2.memory_map_buffer.getD (i * h1.descriptor_size + o) 0 % 256
        = h1.memory_map_buffer.getD (i * h1.descriptor_size + o) 0 % 256) :
    descAt h2 i = descAt h1 i := by
  rw [descAt, descAt, hs]
  simp only [EfiMemoryDescriptor.mk.injEq]
  refine ⟨?_, ?_, ?_⟩
  · exact readLE_congr _ _ 4 _ (fun o ho =>
      hb o (by omega) (Or.inl ho))
  · exact readLE_congr _ _ 8 _ (fun o ho => by
      have := hb (8 + o) (by omega) (Or.inr (Or.inl (by omega)))
      rw [show i * h1.descriptor_size + (8 + o)
          = i * h1.descriptor_size + 8 + o from by omega] at this
      exact this)
  · exact readLE_congr _ _ 8 _ (fun o ho => by
      have := hb (24 + o) (by omega) (Or.inr (Or.inr (by omega)))
      rw [show i * h1.descriptor_size + (24 + o)
          = i * h1.descriptor_size + 24 + o from by omega] at this
      exact this)

theorem descs_congr (h1 h2 : MemoryMapHolder)
    (hs : h2.descriptor_size = h1.descriptor_size)
    (hm : h2.memory_map_size = h1.memory_map_size)
    (hb : ∀ i, i < numDesc h1 → ∀ o, o < 32 →
      (o < 4 ∨ (8 ≤ o ∧ o < 16) ∨ (24 ≤ o ∧ o < 32)) →
      h2.memory_map_buffer.getD (i * h1.descriptor_size + o) 0 % 256
        = h1.memory_map_buffer.getD (i * h1.descriptor_size + o) 0 % 256) :
    descs h2 = descs h1 := by
  rw [descs, descs,
    show numDesc h2 = numDesc h1 from by rw [numDesc, numDesc, hs, hm]]
  exact List.map_congr_left (fun i hi =>
    descAt_congr h1 h2 i hs (hb i (List.mem_range.1 hi)))

theorem new_congr (h1 h2 : MemoryMapHolder)
    (hs : h2.descriptor_size = h1.descriptor_size)
    (hd : descs h2 = descs h1) :
    BitmapFrameAllocator.new h2 = BitmapFrameAllocator.new h1 := by
  have hma : maxAddr h2 = maxAddr h1 := by rw [maxAddr, maxAddr, hd]
  have hfc : frameCountOf h2 = frameCountOf h1 := by
    rw [frameCountOf, frameCountOf, hma]
  have hbn : bytesNeeded h2 = bytesNeeded h1 := by
    rw [bytesNeeded, bytesNeeded, hfc]
  rw [BitmapFrameAllocator.new, BitmapFrameAllocator.new, hs, hbn, hd, hfc]

/-- Claim C4: the walk visits exactly `byte_length / stride` descriptors,
reading the i-th at byte offset `i * stride`; two snapshots with the same
stride and byte length whose buffers agree on the bytes of the read
descriptor fields (memory_type, physical_start, number_of_pages) at those
stride-spaced offsets — but may differ in padding and unread bytes —
produce identical allocators. -/
theorem stride_independence (h1 h2 : MemoryMapHolder)
    (hs : h2.descriptor_size = h1.descriptor_size)
    (hm : h2.memory_map_size = h1.memory_map_size)
    (hb : ∀ i, i < numDesc h1 → ∀ o, o < 32 →
      (o < 4 ∨ (8 ≤ o ∧ o < 16) ∨ (24 ≤ o ∧ o < 32)) →
      h2.memory_map_buffer.getD (i * h1.descriptor_size + o) 0 % 256
        = h1.memory_map_buffer.getD (i * h1.descriptor_size + o) 0 % 256) :
    (descs h1).length = h1.memory_map_size / h1.descriptor_size ∧
    BitmapFrameAllocator.new h2 = BitmapFrameAllocator.new h1 := by
  constructor
  · rw [descs, List.length_map, List.length_range, numDesc]
  · exact new_congr h1 h2 hs (descs_congr h1 h2 hs hm hb)

/-- A 48-byte-stride snapshot (40-byte nominal payload + 8 bytes of
padding): one Usable page at 0, all non-field bytes zero. -/
def holderStride48A : MemoryMapHolder :=
  { memory_map_buffer :=
      encodeLE 7 4 ++ encodeLE 0 4 ++ encodeLE 0 8 ++ encodeLE 0 8 ++
        encodeLE 1 8 ++ encodeLE 0 8 ++ encodeLE 0 8
  , memory_map_size := 48
  , descriptor_size := 48 }

/-- The same snapshot with junk in the alignment padding, virtual_start,
attribute and trailing stride-padding bytes. -/
def holderStride48B : MemoryMapHolder :=
  { memory_map_buffer :=
      encodeLE 7 4 ++ encodeLE 99 4 ++ encodeLE 0 8 ++ encodeLE 77 8 ++
        encodeLE 1 8 ++ encodeLE 55 8 ++ encodeLE 0xDEADBEEF 8
  , memory_map_size := 48
  , descriptor_size := 48 }

/-- Claim C4 witness: the two concrete padded snapshots differ only in
unread bytes and build identical allocators; the walk sees exactly
`48 / 48 = 1` descriptor. -/
theorem stride_independence_witness :
    (descs holderStride48A).length
      = holderStride48A.memory_map_size / holderStride48A.descriptor_size ∧
    BitmapFrameAllocator.new holderStride48B
      = BitmapFrameAllocator.new holderStride48A :=
  stride_independence holderStride48A holderStride48B rfl rfl (by decide)

end FerrOS
